import Mathlib

/-!
# Verification of the clickresearch-stats query-serving layer

A shallow embedding of the query-serving and synchronization layer of the
clickresearch-stats repository, together with theorems settling the frozen
claims about it.

The embedding covers:
* the generic TTL cache (`internal/cache`);
* the domain-authorization cache (`internal/auth/domain_cache.go`);
* the analytics store on both backends: the embedded DuckDB engine
  (`internal/stats`, `Store`) and the ClickHouse replica
  (`internal/stats/store_clickhouse.go`, `ClickHouseStore`);
* the HTTP query-service orchestration (`internal/stats/handler.go`).

Modelling conventions: machine integers are `Nat`/`Int` (all counts are
nonnegative); Go's `float64` percentage arithmetic is modelled over `ℚ`;
timestamps are microseconds since the Unix epoch (the stores compare
`epoch_us(timestamp)` against `from.UnixMicro()`/`to.UnixMicro()`); the JSON
byte level is modelled by a document tree `JValue`; fallible code returns
`Option`/`Except`.
-/

namespace ClickStats

/-! ## Character-list helpers (substring and matching primitives) -/

/-- `listStartsWith pat l` : does `l` start with `pat`? -/
def listStartsWith : List Char → List Char → Bool
  | [], _ => true
  | _ :: _, [] => false
  | a :: as, b :: bs => a == b && listStartsWith as bs

/-- `listEndsWith pat l` : does `l` end with `pat`? -/
def listEndsWith (pat l : List Char) : Bool :=
  listStartsWith pat.reverse l.reverse

/-- SQL `LIKE '%pat%'` : does `l` contain `pat` as a contiguous run? -/
def listIsInfix (pat : List Char) : List Char → Bool
  | [] => listStartsWith pat []
  | c :: rest => listStartsWith pat (c :: rest) || listIsInfix pat rest

/-! ## JSON documents

`encoding/json` values are modelled as document trees; serialization to and
from bytes is abstracted away, marshalling/unmarshalling works on the tree. -/

/-- A JSON document. -/
inductive JValue where
  | null : JValue
  | bool (b : Bool) : JValue
  | num (q : ℚ) : JValue
  | str (s : String) : JValue
  | arr (l : List JValue) : JValue
  | obj (fields : List (String × JValue)) : JValue

/-- `json.Marshal` of a `[]string` : a JSON array of strings. -/
def marshalDomains (ds : List String) : JValue :=
  .arr (ds.map .str)

/-- `json.Unmarshal` of a JSON array into `[]string`: every element must be a
string, otherwise unmarshalling fails. -/
def unmarshalStrList : List JValue → Option (List String)
  | [] => some []
  | .str s :: rest => (unmarshalStrList rest).map (s :: ·)
  | _ => none

/-- `json.Unmarshal` of a document into `[]string`. `null` unmarshals to the
zero value (empty), a non-array non-null document is an error. -/
def unmarshalDomains : JValue → Option (List String)
  | .null => some []
  | .arr l => unmarshalStrList l
  | _ => none

theorem unmarshalStrList_map_str (ds : List String) :
    unmarshalStrList (ds.map .str) = some ds := by
  induction ds with
  | nil => rfl
  | cons d rest ih => simp [unmarshalStrList, ih]

/-- Marshalling a domain list and unmarshalling it back is the identity. -/
theorem unmarshalDomains_marshalDomains (ds : List String) :
    unmarshalDomains (marshalDomains ds) = some ds := by
  simp [marshalDomains, unmarshalDomains, unmarshalStrList_map_str]

/-! ## TTL cache (`internal/cache`, `Cache`)

The Go cache is a `map[string]item` guarded by an RWMutex; the map is
modelled as a function from keys to optional items, which is exactly the
sequential semantics of a Go map.  Serialization of the cached `any` value
is a caller-side codec `enc : α → Option JValue` / `dec : JValue → Option α`,
standing for `json.Marshal` / `json.Unmarshal` at the destination type. -/

/-- `item` : serialized data plus absolute expiry instant. -/
structure CacheItem where
  data : JValue
  expiresAt : Int

/-- `Cache` : the item map and the fixed TTL configured at construction. -/
structure CacheState where
  items : String → Option CacheItem
  ttl : Int

/-- A fresh cache from `New(ttl)`: empty map. -/
def Cache.new (ttl : Int) : CacheState :=
  { items := fun _ => none, ttl := ttl }

/-- `Cache.Get(key, &dest)` at instant `now`.  Absent key or
`time.Now().After(expiresAt)` gives not-found; otherwise the stored document
is unmarshalled into the destination, and an unmarshalling failure is
not-found.  `some v` models `found = true` with `dest = v`. -/
def Cache.Get (c : CacheState) (key : String) (now : Int)
    (dec : JValue → Option α) : Option α :=
  match c.items key with
  | none => none
  | some it => if now > it.expiresAt then none else dec it.data

/-- `Cache.Set(key, val)` at instant `now` : marshal the value — on a marshal
error return without touching the map — then store it with expiry
`now + ttl`, overwriting any prior entry. -/
def Cache.Set (c : CacheState) (key : String) (enc : α → Option JValue)
    (val : α) (now : Int) : CacheState :=
  match enc val with
  | none => c
  | some data =>
    { c with items := fun k =>
        if k == key then some { data := data, expiresAt := now + c.ttl } else c.items k }

/-- One wakeup of the background `cleanup` sweep at instant `now` : delete
every entry whose expiry has passed. -/
def Cache.cleanup (c : CacheState) (now : Int) : CacheState :=
  { c with items := fun k =>
      match c.items k with
      | none => none
      | some it => if now > it.expiresAt then none else some it }

/-! ## Domain authorization cache (`internal/auth/domain_cache.go`) -/

/-- The in-memory `map[string]bool` of valid domains, as its membership
function. -/
abbrev DomainMap := String → Bool

def emptyDomainMap : DomainMap := fun _ => false

/-- Build the map from a fetched list: `for _, d := range ds { m[d] = true }`. -/
def mkDomainMap (ds : List String) : DomainMap :=
  ds.foldl (fun m d => fun x => if x == d then true else m x) emptyDomainMap

/-- The state owned by a `DomainCache`: its in-memory set and the snapshot
file `/tmp/domain_cache.json` (`none` when the file is absent or unreadable). -/
structure DomainCacheState where
  domains : DomainMap
  file : Option JValue

/-- The outcome of one `GET {statsURL}/api/sync/domains` call: a transport
error, or a response with a status code and a body (`none` when the body is
not syntactically valid JSON). -/
inductive HTTPOutcome where
  | netError (msg : String) : HTTPOutcome
  | response (status : Nat) (body : Option JValue) : HTTPOutcome

/-- Decoding the response body into `struct { Domains []string }`: the body
must be a JSON object (or `null`); an absent or null `domains` field leaves
the zero value; otherwise the field must unmarshal as `[]string`. -/
def decodeDomainsResponse : JValue → Option (List String)
  | .null => some []
  | .obj fields =>
    match fields.lookup "domains" with
    | none => some []
    | some .null => some []
    | some v => unmarshalDomains v
  | _ => none

/-- `saveToFile` : marshal the list (which cannot fail for `[]string`) and
overwrite the snapshot file. -/
def DomainCache.saveToFile (st : DomainCacheState) (ds : List String) :
    DomainCacheState :=
  { st with file := some (marshalDomains ds) }

/-- `loadFromFile` : read the snapshot file, unmarshal it as `[]string`, and
rebuild the in-memory map from it. -/
def DomainCache.loadFromFile (st : DomainCacheState) :
    Except String DomainCacheState :=
  match st.file with
  | none => .error "read file failed"
  | some content =>
    match unmarshalDomains content with
    | none => .error "unmarshal failed"
    | some ds => .ok { st with domains := mkDomainMap ds }

/-- `refresh` : one fetch-and-replace cycle against the remote source.
Faithful to the source, including its slip: after a successful `client.Do`
the local `err` is `nil`, so the non-200 branch `return err` returns a nil
error. -/
def DomainCache.refresh (st : DomainCacheState) (h : HTTPOutcome) :
    Option String × DomainCacheState :=
  match h with
  | .netError m => (some m, st)
  | .response status body =>
    if status ≠ 200 then
      (none, st)
    else
      match body with
      | none => (some "decode failed", st)
      | some doc =>
        match decodeDomainsResponse doc with
        | none => (some "decode failed", st)
        | some ds =>
          (none, DomainCache.saveToFile { st with domains := mkDomainMap ds } ds)

/-- `DomainExists` : exact, case-sensitive membership test. -/
def DomainCache.DomainExists (st : DomainCacheState) (d : String) : Bool :=
  st.domains d

/-- `NewDomainCache` : start empty, attempt one refresh; only when the
refresh reports an error fall back to loading the snapshot file, and when
that also fails keep the empty set. -/
def DomainCache.new (file0 : Option JValue) (h : HTTPOutcome) : DomainCacheState :=
  let st0 : DomainCacheState := { domains := emptyDomainMap, file := file0 }
  match DomainCache.refresh st0 h with
  | (none, st) => st
  | (some _, st) =>
    match DomainCache.loadFromFile st with
    | .ok st2 => st2
    | .error _ => st

/-! ## Funnel step matcher

Modelled from the spec: the function `matchesStep` is code of this repository
that is not under `src/` — only its unit tests (`TestMatchesStep` in
`internal/stats/store_test.go`) are present.  Per the spec: a step without a
trailing `/*` matches only the exact pathname; a step ending in `/*` matches
exactly the pathnames that extend the step's route, i.e. that begin with the
step's slash-terminated stem and have at least one further character of path
after it (the wildcard requires at least one trailing path segment). -/

/-- Modelled from the spec: the funnel step matcher `matchesStep`, absent
from `src/`.  A step ending in `"/*"` matches pathnames that strictly extend
its stem (the step with the final `*` removed); any other step matches only
the exact pathname. -/
def matchesStep (pathname step : String) : Bool :=
  if listEndsWith "/*".data step.data then
    let stem := step.data.dropLast
    listStartsWith stem pathname.data && stem.length < pathname.data.length
  else
    pathname == step

/-! ## The events table

A row of the `events` table materialized from the remote parquet files.
Nullable columns are `Option String`; the free-form `props` blob (a
serialized key-value document) is modelled at document level as an optional
association list, with `json_extract_string(props, key)` as lookup.
`timestamp` is microseconds since the Unix epoch. -/

structure Event where
  domain : String
  visitor_id : String
  name : String
  pathname : Option String
  url : Option String
  referrer : Option String
  browser : Option String
  os : Option String
  device : Option String
  country : Option String
  props : Option (List (String × String))
  timestamp : Int
deriving DecidableEq, Repr

/-- `epoch_us(timestamp) >= from AND epoch_us(timestamp) < to` : the
half-open window `[from, to)`. -/
def inWindow (e : Event) (fromUs toUs : Int) : Bool :=
  decide (fromUs ≤ e.timestamp) && decide (e.timestamp < toUs)

/-- A database handle: the contents of the events table source, plus which
of the method's query executions fail (`qfail i` = the i-th query issued by
the method returns an error). -/
structure DB where
  events : List Event
  qfail : Nat → Bool

/-- A database whose every query succeeds against `events`. -/
def noFailDB (events : List Event) : DB :=
  { events := events, qfail := fun _ => false }

/-- Run the method's `i`-th query: semantics `f` over the table on success,
an error otherwise. -/
def DB.runQ (db : DB) (i : Nat) (f : List Event → α) : Except String α :=
  if db.qfail i then .error "query failed" else .ok (f db.events)

/-- `COUNT(DISTINCT x)` over a column of values. -/
def distinctCount (l : List String) : Nat :=
  l.dedup.length

/-! ## Overview (`Store.GetOverview`, `ClickHouseStore.GetOverview`) -/

structure Overview where
  pageviews : Nat
  uniqueVisitors : Nat
  events : Nat
deriving DecidableEq, Repr

/-- The overview aggregate: pageview count, distinct visitors, total events
for the domain inside the window. -/
def overviewOf (events : List Event) (dom : String) (fromUs toUs : Int) : Overview :=
  let rows := events.filter fun e => e.domain == dom && inWindow e fromUs toUs
  { pageviews := (rows.filter fun e => e.name == "pageview").length
    uniqueVisitors := distinctCount (rows.map Event.visitor_id)
    events := rows.length }

/-- `Store.GetOverview` : zero value and nil error when the store has never
been marked ready; otherwise run the aggregate query, surfacing its error. -/
def Store.GetOverview (ready : Bool) (db : DB) (dom : String) (fromUs toUs : Int) :
    Except String Overview :=
  if !ready then .ok { pageviews := 0, uniqueVisitors := 0, events := 0 }
  else db.runQ 0 fun evs => overviewOf evs dom fromUs toUs

/-! ## Pageviews time series -/

structure TimeSeriesPoint where
  time : String
  value : Nat
deriving DecidableEq, Repr

def usPerHour : Int := 3600000000
def usPerDay : Int := 86400000000

/-- The bucket width of `date_trunc`: hourly iff the interval parameter is
`"hour"`, daily otherwise. -/
def tsBucketUs (interval : String) : Int :=
  if interval == "hour" then usPerHour else usPerDay

/-- `date_trunc` to a bucket boundary (floor to a multiple of the width). -/
def truncUs (bucketUs : Int) (t : Int) : Int :=
  (Int.fdiv t bucketUs) * bucketUs

/-- Civil date (year, month, day) of a day count since 1970-01-01
(proleptic Gregorian). -/
def civilFromDays (z0 : Int) : Int × Nat × Nat :=
  let z := z0 + 719468
  let era : Int := Int.fdiv z 146097
  let doe : Nat := (z - era * 146097).toNat
  let yoe : Nat := (doe - doe / 1460 + doe / 36524 - doe / 146096) / 365
  let doy : Nat := doe - (365 * yoe + yoe / 4 - yoe / 100)
  let mp : Nat := (5 * doy + 2) / 153
  let d : Nat := doy - (153 * mp + 2) / 5 + 1
  let m : Nat := if mp < 10 then mp + 3 else mp - 9
  let y : Int := (yoe : Int) + era * 400 + (if m ≤ 2 then 1 else 0)
  (y, m, d)

def pad2 (n : Nat) : String :=
  if n < 10 then "0" ++ toString n else toString n

def pad4 (n : Nat) : String :=
  if n < 10 then "000" ++ toString n
  else if n < 100 then "00" ++ toString n
  else if n < 1000 then "0" ++ toString n
  else toString n

/-- Go layout `"2006-01-02"` : the `YYYY-MM-DD` rendering of a timestamp. -/
def fmtYMD (tUs : Int) : String :=
  let days := Int.fdiv tUs usPerDay
  let ymd := civilFromDays days
  pad4 ymd.1.toNat ++ "-" ++ pad2 ymd.2.1 ++ "-" ++ pad2 ymd.2.2

/-- Microseconds elapsed since the start of the timestamp's UTC day. -/
def usOfDay (tUs : Int) : Nat :=
  (tUs - (Int.fdiv tUs usPerDay) * usPerDay).toNat

/-- Hour of day of a timestamp. -/
def hourOfDay (tUs : Int) : Nat :=
  usOfDay tUs / 3600000000

/-- The bucket label: Go layout `"2006-01-02T15:00"` when the interval is
hourly, `"2006-01-02"` otherwise. -/
def fmtBucket (interval : String) (tUs : Int) : String :=
  if interval == "hour" then fmtYMD tUs ++ "T" ++ pad2 (hourOfDay tUs) ++ ":00"
  else fmtYMD tUs

/-- Insertion of an `Int` into an ascending-sorted list. -/
def insertAsc (x : Int) : List Int → List Int
  | [] => [x]
  | y :: ys => if x ≤ y then x :: y :: ys else y :: insertAsc x ys

/-- `ORDER BY time_bucket` ascending. -/
def sortAsc (l : List Int) : List Int :=
  l.foldr insertAsc []

/-- The rows feeding the time-series query: pageviews of the domain inside
the window. -/
def pageviewRows (events : List Event) (dom : String) (fromUs toUs : Int) : List Event :=
  events.filter fun e => e.domain == dom && e.name == "pageview" && inWindow e fromUs toUs

/-- The time-series query: group the domain's pageviews by truncated
timestamp, count each bucket, order by bucket, and render each bucket with
the interval's Go layout. -/
def timeSeriesOf (events : List Event) (dom : String) (fromUs toUs : Int)
    (interval : String) : List TimeSeriesPoint :=
  let rows := pageviewRows events dom fromUs toUs
  let buckets := sortAsc ((rows.map fun e => truncUs (tsBucketUs interval) e.timestamp).dedup)
  buckets.map fun b =>
    { time := fmtBucket interval b
      value := (rows.filter fun e => truncUs (tsBucketUs interval) e.timestamp == b).length }

/-- `Store.GetPageviewsTimeSeries` : nil result and nil error when never
ready; otherwise run the bucketed query, surfacing its error. -/
def Store.GetPageviewsTimeSeries (ready : Bool) (db : DB) (dom : String)
    (fromUs toUs : Int) (interval : String) : Except String (List TimeSeriesPoint) :=
  if !ready then .ok []
  else db.runQ 0 fun evs => timeSeriesOf evs dom fromUs toUs interval

/-! ## Top-N rankings -/

structure TopItem where
  name : String
  count : Nat
deriving DecidableEq, Repr

/-- Insertion into a list kept sorted descending by key `f`. -/
def insertDescBy (f : α → Int) (x : α) : List α → List α
  | [] => [x]
  | y :: ys => if f y < f x then x :: y :: ys else y :: insertDescBy f x ys

/-- `ORDER BY f DESC` (ties in arbitrary but stable order). -/
def sortDescBy (f : α → Int) (l : List α) : List α :=
  l.foldr (insertDescBy f) []

/-- `GROUP BY key` with `COUNT(*)`. -/
def groupCount (keys : List String) : List TopItem :=
  keys.dedup.map fun k => { name := k, count := keys.count k }

/-- `COALESCE(NULLIF(field, ''), 'Unknown')` : fold NULL and empty into the
sentinel. -/
def dimOrUnknown (v : Option String) : String :=
  match v with
  | none => "Unknown"
  | some s => if s == "" then "Unknown" else s

/-- `Store.getTopBy` : group the domain's rows (optionally restricted to one
event name) by a dimension, count, rank descending, limit. -/
def Store.getTopBy (ready : Bool) (db : DB) (sel : Event → Option String)
    (eventFilter dom : String) (fromUs toUs : Int) (limit : Nat) :
    Except String (List TopItem) :=
  if !ready then .ok []
  else db.runQ 0 fun evs =>
    let rows := evs.filter fun e =>
      e.domain == dom && (eventFilter == "" || e.name == eventFilter) &&
        inWindow e fromUs toUs
    ((sortDescBy (fun it : TopItem => (it.count : Int))
        (groupCount (rows.map fun e => dimOrUnknown (sel e))))).take limit

def Store.GetTopPages (ready : Bool) (db : DB) (dom : String) (fromUs toUs : Int)
    (limit : Nat) : Except String (List TopItem) :=
  Store.getTopBy ready db Event.pathname "pageview" dom fromUs toUs limit

def Store.GetTopBrowsers (ready : Bool) (db : DB) (dom : String) (fromUs toUs : Int)
    (limit : Nat) : Except String (List TopItem) :=
  Store.getTopBy ready db Event.browser "" dom fromUs toUs limit

def Store.GetTopCountries (ready : Bool) (db : DB) (dom : String) (fromUs toUs : Int)
    (limit : Nat) : Except String (List TopItem) :=
  Store.getTopBy ready db Event.country "" dom fromUs toUs limit

def Store.GetTopDevices (ready : Bool) (db : DB) (dom : String) (fromUs toUs : Int)
    (limit : Nat) : Except String (List TopItem) :=
  Store.getTopBy ready db Event.device "" dom fromUs toUs limit

def Store.GetEventBreakdown (ready : Bool) (db : DB) (dom : String)
    (fromUs toUs : Int) : Except String (List TopItem) :=
  Store.getTopBy ready db (fun e => some e.name) "" dom fromUs toUs 10

/-- `regexp_extract(referrer, 'https?://([^/]+)', 1)` : the host of the
leftmost scheme match, or empty when the pattern does not match. -/
def scanHost : List Char → List Char
  | [] => []
  | c :: rest =>
    if listStartsWith "https://".data (c :: rest) then
      let host := ((c :: rest).drop 8).takeWhile (fun ch => ch ≠ '/')
      if host.isEmpty then scanHost rest else host
    else if listStartsWith "http://".data (c :: rest) then
      let host := ((c :: rest).drop 7).takeWhile (fun ch => ch ≠ '/')
      if host.isEmpty then scanHost rest else host
    else scanHost rest

/-- The `CASE` expression of the top-sources query: empty or NULL referrer
is `Direct`, a referrer containing the domain (`LIKE '%' || domain || '%'`)
is `Direct`, anything else is reduced to its extracted host. -/
def sourceOf (dom : String) (referrer : Option String) : String :=
  match referrer with
  | none => "Direct"
  | some r =>
    if r == "" then "Direct"
    else if listIsInfix dom.data r.data then "Direct"
    else String.mk (scanHost r.data)

/-- `Store.GetTopSources` : group the domain's pageviews by cleaned referrer
source, count, rank descending, limit. -/
def Store.GetTopSources (ready : Bool) (db : DB) (dom : String) (fromUs toUs : Int)
    (limit : Nat) : Except String (List TopItem) :=
  if !ready then .ok []
  else db.runQ 0 fun evs =>
    let rows := pageviewRows evs dom fromUs toUs
    ((sortDescBy (fun it : TopItem => (it.count : Int))
        (groupCount (rows.map fun e => sourceOf dom e.referrer)))).take limit

def Store.GetUniquePages (ready : Bool) (db : DB) (dom : String) (fromUs toUs : Int)
    (limit : Nat) : Except String (List TopItem) :=
  Store.GetTopPages ready db dom fromUs toUs limit

/-! ## Recent events -/

/-- A rendered recent event; missing optional fields default to empty
string, `Unknown` or `desktop`. The `props` blob stays at document level. -/
structure EventItem where
  name : String
  url : String
  pathname : String
  country : String
  browser : String
  os : String
  device : String
  timestamp : String
  props : List (String × String)
deriving DecidableEq, Repr

/-- Go layout `"2006-01-02 15:04:05"` : absolute second-precision rendering. -/
def fmtFullTimestamp (tUs : Int) : String :=
  let s := usOfDay tUs / 1000000
  fmtYMD tUs ++ " " ++ pad2 (s / 3600) ++ ":" ++ pad2 (s % 3600 / 60) ++ ":" ++ pad2 (s % 60)

/-- The recent-events query: the domain's rows in the window, reverse
chronological, limited, with per-column defaults. -/
def recentEventsOf (events : List Event) (dom : String) (fromUs toUs : Int)
    (limit : Nat) : List EventItem :=
  let rows := events.filter fun e => e.domain == dom && inWindow e fromUs toUs
  ((sortDescBy (fun e : Event => e.timestamp) rows).take limit).map fun e =>
    { name := e.name
      url := e.url.getD ""
      pathname := e.pathname.getD ""
      country := e.country.getD "Unknown"
      browser := e.browser.getD "Unknown"
      os := e.os.getD "Unknown"
      device := e.device.getD "desktop"
      timestamp := fmtFullTimestamp e.timestamp
      props := e.props.getD [] }

def Store.GetRecentEvents (ready : Bool) (db : DB) (dom : String) (fromUs toUs : Int)
    (limit : Nat) : Except String (List EventItem) :=
  if !ready then .ok []
  else db.runQ 0 fun evs => recentEventsOf evs dom fromUs toUs limit

/-! ## Autocapture events -/

structure AutocaptureEvent where
  eventType : String
  text : String
  tag : String
  pathname : String
  count : Nat
deriving DecidableEq, Repr

/-- `COALESCE(json_extract_string(props, key), '')`. -/
def jsonExtractD (props : Option (List (String × String))) (k : String) : String :=
  match props with
  | none => ""
  | some doc => (doc.lookup k).getD ""

/-- The autocapture query: group the domain's interaction events (`click`,
`submit`, `change`) in the window by (name, text, tag, pathname), count,
rank descending, limit. -/
def autocaptureOf (events : List Event) (dom : String) (fromUs toUs : Int)
    (limit : Nat) : List AutocaptureEvent :=
  let rows := events.filter fun e => e.domain == dom &&
    (e.name == "click" || e.name == "submit" || e.name == "change") &&
    inWindow e fromUs toUs
  let keys := rows.map fun e =>
    (e.name, jsonExtractD e.props "text", jsonExtractD e.props "tag", (e.pathname.getD ""))
  let grouped := keys.dedup.map fun k =>
    { eventType := k.1, text := k.2.1, tag := k.2.2.1, pathname := k.2.2.2,
      count := keys.count k : AutocaptureEvent }
  (sortDescBy (fun a : AutocaptureEvent => (a.count : Int)) grouped).take limit

def Store.GetAutocaptureEvents (ready : Bool) (db : DB) (dom : String)
    (fromUs toUs : Int) (limit : Nat) : Except String (List AutocaptureEvent) :=
  if !ready then .ok []
  else db.runQ 0 fun evs => autocaptureOf evs dom fromUs toUs limit

/-! ## Funnels -/

structure FunnelStep where
  name : String
  count : Nat
  percent : ℚ
deriving DecidableEq, Repr

structure FunnelResult where
  steps : List FunnelStep
  totalStart : Nat
  totalFinish : Nat
  conversion : ℚ
deriving DecidableEq, Repr

/-- `make([]FunnelStep, n)` : `n` zero-valued steps. -/
def zeroFunnelSteps (n : Nat) : List FunnelStep :=
  List.replicate n { name := "", count := 0, percent := 0 }

/-- The zero-valued `FunnelResult` returned on the not-ready / too-few-steps
early exit. -/
def emptyFunnelResult (n : Nat) : FunnelResult :=
  { steps := zeroFunnelSteps n, totalStart := 0, totalFinish := 0, conversion := 0 }

/-- The per-step count query: `COUNT(DISTINCT visitor_id)` over the domain's
pageviews with `pathname = step` inside the window. -/
def funnelStepPred (dom : String) (fromUs toUs : Int) (step : String) (e : Event) : Bool :=
  e.domain == dom && e.name == "pageview" && e.pathname == some step &&
    inWindow e fromUs toUs

def funnelStepCount (events : List Event) (dom : String) (fromUs toUs : Int)
    (step : String) : Nat :=
  distinctCount ((events.filter (funnelStepPred dom fromUs toUs step)).map Event.visitor_id)

/-- `QueryRowContext(...).Scan(&count)` with the error discarded: on a query
failure `count` keeps its zero value. -/
def scanCountIgnoreErr (q : Except String Nat) : Nat :=
  match q with
  | .ok n => n
  | .error _ => 0

/-- Assemble a `FunnelResult` from the per-step (name, count) pairs:
`TotalStart` is the first count, `TotalFinish` the last, and the percent
fields are only written when `TotalStart > 0` (they stay `0` otherwise). -/
def buildFunnelResult (pairs : List (String × Nat)) : FunnelResult :=
  if pairs.length > 0 then
    let totalStart := (pairs.headD ("", 0)).2
    let totalFinish := (pairs.getLastD ("", 0)).2
    { steps := pairs.map fun p =>
        { name := p.1, count := p.2,
          percent := if totalStart > 0 then (p.2 : ℚ) / (totalStart : ℚ) * 100 else 0 }
      totalStart := totalStart
      totalFinish := totalFinish
      conversion := if totalStart > 0 then (totalFinish : ℚ) / (totalStart : ℚ) * 100 else 0 }
  else
    { steps := [], totalStart := 0, totalFinish := 0, conversion := 0 }

/-- `Store.GetFunnel` : zero-valued result when never ready or fewer than two
steps; otherwise issue one distinct-visitor count query per step (`i`-th
query for the `i`-th step, its error discarded) and assemble the result.
The method itself never returns an error. -/
def Store.GetFunnel (ready : Bool) (db : DB) (dom : String) (fromUs toUs : Int)
    (steps : List String) : Except String FunnelResult :=
  if !ready || decide (steps.length < 2) then .ok (emptyFunnelResult steps.length)
  else
    .ok (buildFunnelResult (steps.enum.map fun p =>
      (p.2, scanCountIgnoreErr (db.runQ p.1 fun evs => funnelStepCount evs dom fromUs toUs p.2))))

/-- `ClickHouseStore.GetFunnel` : as `Store.GetFunnel` but with no ready
flag (the replica table always exists). -/
def ClickHouseStore.GetFunnel (db : DB) (dom : String) (fromUs toUs : Int)
    (steps : List String) : Except String FunnelResult :=
  if decide (steps.length < 2) then .ok (emptyFunnelResult steps.length)
  else
    .ok (buildFunnelResult (steps.enum.map fun p =>
      (p.2, scanCountIgnoreErr (db.runQ p.1 fun evs => funnelStepCount evs dom fromUs toUs p.2))))

/-- A step matcher of an advanced funnel definition. -/
structure FunnelStepDef where
  type : String
  value : String
  text : String
  tag : String
deriving DecidableEq, Repr

/-- The Go loop collecting the values of the pageview-typed steps, in order. -/
def pageviewValues (steps : List FunnelStepDef) : List String :=
  steps.foldl (fun acc step => if step.type == "pageview" then acc ++ [step.value] else acc) []

/-- `Store.GetFunnelAdvanced` : keep only the pageview steps' values and
delegate to the basic funnel; the window parameter is unused. -/
def Store.GetFunnelAdvanced (ready : Bool) (db : DB) (dom : String) (fromUs toUs : Int)
    (steps : List FunnelStepDef) (windowMinutes : Int) : Except String FunnelResult :=
  Store.GetFunnel ready db dom fromUs toUs (pageviewValues steps)

/-- `ClickHouseStore.GetFunnelAdvanced` : same degradation on the ClickHouse
backend. -/
def ClickHouseStore.GetFunnelAdvanced (db : DB) (dom : String) (fromUs toUs : Int)
    (steps : List FunnelStepDef) (windowMinutes : Int) : Except String FunnelResult :=
  ClickHouseStore.GetFunnel db dom fromUs toUs (pageviewValues steps)

/-! ## Query service (`internal/stats/handler.go`) -/

/-- `HandlePageviews`' granularity choice: hourly unless the window exceeds
7 days (`to.Sub(from) > 7*24*time.Hour`, here in microseconds). -/
def chooseInterval (fromUs toUs : Int) : String :=
  if toUs - fromUs > 7 * 24 * 3600 * 1000000 then "day" else "hour"

/-- The shared handler flow: try the cache; on a hit answer from it; on a
miss consult the store — propagate a store error without touching the cache,
or populate the cache and answer.  Returns the cache state after the request
and the response. -/
def handleQuery (c : CacheState) (key : String) (now : Int)
    (dec : JValue → Option α) (enc : α → Option JValue)
    (fetch : Except String α) : CacheState × Except String α :=
  match Cache.Get c key now dec with
  | some v => (c, .ok v)
  | none =>
    match fetch with
    | .error e => (c, .error e)
    | .ok v => (Cache.Set c key enc v now, .ok v)

/-! ## Helper lemmas -/

theorem pageviewValues_eq (steps : List FunnelStepDef) :
    pageviewValues steps =
      (steps.filter (fun s => s.type == "pageview")).map FunnelStepDef.value := by
  suffices h : ∀ acc : List String,
      steps.foldl (fun acc step =>
        if step.type == "pageview" then acc ++ [step.value] else acc) acc =
      acc ++ (steps.filter (fun s => s.type == "pageview")).map FunnelStepDef.value by
    simpa [pageviewValues] using h []
  induction steps with
  | nil => intro acc; simp
  | cons s rest ih =>
    intro acc
    cases hs : s.type == "pageview"
    · simp only [List.foldl_cons, List.filter_cons, hs, Bool.false_eq_true, if_false]
      exact ih acc
    · simp only [List.foldl_cons, List.filter_cons, hs, eq_self_iff_true, if_true,
        List.map_cons]
      rw [ih (acc ++ [s.value])]
      simp [List.append_assoc]

/-! ## C4 -/

/-- C4: the funnel step matcher: a step without a trailing `/*` matches only
the exact pathname (`matchesStep "/dashboard/settings" "/dashboard"` is
false), while a wildcard step requires at least one trailing path segment
(`"/dashboard/settings"` matches `"/dashboard/*"` but the bare
`"/dashboard"` does not). -/
theorem c4_matchesStep_cases :
    matchesStep "/dashboard/settings" "/dashboard" = false ∧
    matchesStep "/dashboard/settings" "/dashboard/*" = true ∧
    matchesStep "/dashboard" "/dashboard/*" = false := by
  exact ⟨by decide, by decide, by decide⟩

/-! ## C2 -/

/-- C2: every query method of the embedded-engine backend returns a
zero-value/empty result and no error while the ready flag has never been
set, whatever the database would do. -/
theorem c2_not_ready_returns_empty (db : DB) (dom interval : String) (f t : Int)
    (limit : Nat) (steps : List String) :
    Store.GetOverview false db dom f t = .ok { pageviews := 0, uniqueVisitors := 0, events := 0 } ∧
    Store.GetPageviewsTimeSeries false db dom f t interval = .ok [] ∧
    Store.GetTopPages false db dom f t limit = .ok [] ∧
    Store.GetTopSources false db dom f t limit = .ok [] ∧
    Store.GetTopBrowsers false db dom f t limit = .ok [] ∧
    Store.GetTopCountries false db dom f t limit = .ok [] ∧
    Store.GetTopDevices false db dom f t limit = .ok [] ∧
    Store.GetEventBreakdown false db dom f t = .ok [] ∧
    Store.GetUniquePages false db dom f t limit = .ok [] ∧
    Store.GetRecentEvents false db dom f t limit = .ok [] ∧
    Store.GetFunnel false db dom f t steps = .ok (emptyFunnelResult steps.length) ∧
    Store.GetAutocaptureEvents false db dom f t limit = .ok [] :=
  ⟨rfl, rfl, rfl, rfl, rfl, rfl, rfl, rfl, rfl, rfl, rfl, rfl⟩

/-! ## C10 -/

/-- C10: when marshalling the value fails, `Cache.Set` is a no-op: the cache
state is unchanged, so every later `Get` behaves exactly as before the
`Set`. -/
theorem c10_set_marshal_failure {α β : Type} (c : CacheState) (key : String)
    (enc : α → Option JValue) (val : α) (t0 : Int) (h : enc val = none) :
    Cache.Set c key enc val t0 = c ∧
    ∀ (k2 : String) (t1 : Int) (dec : JValue → Option β),
      Cache.Get (Cache.Set c key enc val t0) k2 t1 dec = Cache.Get c k2 t1 dec := by
  have hs : Cache.Set c key enc val t0 = c := by
    unfold Cache.Set; rw [h]
  exact ⟨hs, fun k2 t1 dec => by rw [hs]⟩

/-- Witness for C10 at a concrete always-failing encoder. -/
theorem c10_witness :
    ((fun _ : Nat => (none : Option JValue)) 7 = none) ∧
    Cache.Set (Cache.new 5) "k" (fun _ : Nat => (none : Option JValue)) 7 0 = Cache.new 5 :=
  ⟨rfl, (c10_set_marshal_failure (β := Nat) (Cache.new 5) "k"
      (fun _ => none) 7 0 rfl).1⟩

/-! ## C5 -/

/-- C5 (code bug): on a non-200 response the local `err` is still nil from
the successful `client.Do`, so `refresh` returns a nil error (the domain set
is at least left unchanged), and consequently `NewDomainCache` does not fall
back to the snapshot file: with a snapshot containing `cached.example` and a
remote answering 500, the constructed cache denies `cached.example`. -/
theorem c5_non200_yields_nil_error_and_skips_fallback :
    DomainCache.refresh { domains := emptyDomainMap, file := none }
        (.response 500 (some (.obj []))) =
      (none, { domains := emptyDomainMap, file := none }) ∧
    (DomainCache.new (some (marshalDomains ["cached.example"]))
        (.response 500 (some (.obj [])))).domains "cached.example" = false ∧
    (DomainCache.refresh { domains := emptyDomainMap, file := none }
        (.response 200 (some (.obj [("domains", .num 3)])))).1 = some "decode failed" := by
  exact ⟨rfl, rfl, rfl⟩

/-! ## C6 -/

/-- C6: on both backends `GetFunnelAdvanced` returns exactly the basic
funnel applied to the values of the pageview-typed steps in their original
order; other step types and the window parameter have no effect. -/
theorem c6_advanced_degrades_to_basic (ready : Bool) (db : DB) (dom : String)
    (f t w : Int) (steps : List FunnelStepDef) :
    Store.GetFunnelAdvanced ready db dom f t steps w =
      Store.GetFunnel ready db dom f t
        ((steps.filter (fun s => s.type == "pageview")).map FunnelStepDef.value) ∧
    ClickHouseStore.GetFunnelAdvanced db dom f t steps w =
      ClickHouseStore.GetFunnel db dom f t
        ((steps.filter (fun s => s.type == "pageview")).map FunnelStepDef.value) := by
  unfold Store.GetFunnelAdvanced ClickHouseStore.GetFunnelAdvanced
  rw [pageviewValues_eq]
  exact ⟨rfl, rfl⟩

/-! ## C9 -/

/-- C9: saving a domain snapshot and loading it back (as done when the
remote source is unreachable at startup) reproduces exactly the membership
map a successful refresh with that list would have produced. -/
theorem c9_snapshot_roundtrip (st : DomainCacheState) (ds : List String) (d : String) :
    ∃ st2, DomainCache.loadFromFile (DomainCache.saveToFile st ds) = .ok st2 ∧
      st2.domains d = mkDomainMap ds d ∧
      (DomainCache.refresh st
          (.response 200 (some (.obj [("domains", marshalDomains ds)])))).2.domains d =
        mkDomainMap ds d ∧
      (DomainCache.new (some (marshalDomains ds)) (.netError "connection refused")).domains d =
        mkDomainMap ds d := by
  refine ⟨{ domains := mkDomainMap ds, file := some (marshalDomains ds) }, ?_, rfl, ?_, ?_⟩
  · unfold DomainCache.saveToFile DomainCache.loadFromFile
    simp [unmarshalDomains_marshalDomains]
  · unfold DomainCache.refresh
    simp [decodeDomainsResponse, List.lookup, marshalDomains,
      unmarshalDomains, unmarshalStrList_map_str, DomainCache.saveToFile]
  · unfold DomainCache.new DomainCache.refresh DomainCache.loadFromFile
    simp [unmarshalDomains_marshalDomains]

/-! ## C8 (corrected) -/

/-- A database whose every query fails against an empty table. -/
def failDB (events : List Event) : DB :=
  { events := events, qfail := fun _ => true }

/-- C8 counterexample: a per-step count query inside `GetFunnel` fails (the
database reports an error for every query), yet `GetFunnel` returns a
successful result with zero counts — the failure is not surfaced to the
immediate caller, refuting the claim for the per-step funnel queries. -/
theorem c8_counterexample_funnel_swallows_failure :
    Store.GetFunnel true (failDB []) "example.com" 0 1000000 ["/a", "/b"] =
      .ok { steps := [{ name := "/a", count := 0, percent := 0 },
                      { name := "/b", count := 0, percent := 0 }]
            totalStart := 0
            totalFinish := 0
            conversion := 0 } := by
  rfl

/-- C8 (amended): every query method except the per-step count queries of
`GetFunnel` surfaces a database-call failure as an error to its immediate
caller; `GetFunnel` discards per-step query failures, recording a zero count
for the failed step and returning no error; and the query service leaves the
TTL cache untouched whenever the store call returned an error. -/
theorem c8_failures_surfaced_except_funnel {α : Type} (events : List Event)
    (dom s1 s2 interval : String) (f t : Int) (limit : Nat) :
    Store.GetOverview true (failDB events) dom f t = .error "query failed" ∧
    Store.GetPageviewsTimeSeries true (failDB events) dom f t interval = .error "query failed" ∧
    Store.GetTopPages true (failDB events) dom f t limit = .error "query failed" ∧
    Store.GetTopSources true (failDB events) dom f t limit = .error "query failed" ∧
    Store.GetTopBrowsers true (failDB events) dom f t limit = .error "query failed" ∧
    Store.GetTopCountries true (failDB events) dom f t limit = .error "query failed" ∧
    Store.GetTopDevices true (failDB events) dom f t limit = .error "query failed" ∧
    Store.GetEventBreakdown true (failDB events) dom f t = .error "query failed" ∧
    Store.GetUniquePages true (failDB events) dom f t limit = .error "query failed" ∧
    Store.GetRecentEvents true (failDB events) dom f t limit = .error "query failed" ∧
    Store.GetAutocaptureEvents true (failDB events) dom f t limit = .error "query failed" ∧
    Store.GetFunnel true (failDB events) dom f t [s1, s2] =
      .ok (buildFunnelResult [(s1, 0), (s2, 0)]) ∧
    ∀ (c : CacheState) (key : String) (now : Int) (dec : JValue → Option α)
      (enc : α → Option JValue) (e : String),
      (handleQuery c key now dec enc (.error e)).1 = c := by
  refine ⟨rfl, rfl, rfl, rfl, rfl, rfl, rfl, rfl, rfl, rfl, rfl, rfl, ?_⟩
  intro c key now dec enc e
  unfold handleQuery
  cases h : Cache.Get c key now dec <;> simp [h]

/-! ## C3 -/

/-- C3: a `Get` after a `Set` of a serializable value returns exactly the
value set while the TTL has not elapsed; once it has elapsed the entry is
reported not-found whether or not the background sweep already deleted it;
an absent key is not-found; a value whose deserialization fails is
not-found. -/
theorem Cache.Get_items_some {α : Type} {c : CacheState} {key : String} {now : Int}
    {dec : JValue → Option α} {it : CacheItem} (h : c.items key = some it) :
    Cache.Get c key now dec = if now > it.expiresAt then none else dec it.data := by
  unfold Cache.Get; rw [h]

theorem Cache.Get_items_none {α : Type} {c : CacheState} {key : String} {now : Int}
    {dec : JValue → Option α} (h : c.items key = none) :
    Cache.Get c key now dec = none := by
  unfold Cache.Get; rw [h]

theorem Cache.cleanup_items (c : CacheState) (now : Int) (key : String) {it : CacheItem}
    (h : c.items key = some it) :
    (Cache.cleanup c now).items key =
      if now > it.expiresAt then none else some it := by
  have hred : (Cache.cleanup c now).items key =
      match c.items key with
      | none => none
      | some it => if now > it.expiresAt then none else some it := rfl
  rw [hred, h]

theorem c3_cache_get_set {α : Type} (c : CacheState) (key : String) (val : α)
    (j : JValue) (t0 t1 : Int) (enc : α → Option JValue) (dec dec2 : JValue → Option α)
    (hlaw : ∀ a jv, enc a = some jv → dec jv = some a)
    (henc : enc val = some j) :
    (t1 ≤ t0 + c.ttl → Cache.Get (Cache.Set c key enc val t0) key t1 dec = some val) ∧
    (t0 + c.ttl < t1 →
      Cache.Get (Cache.Set c key enc val t0) key t1 dec = none ∧
      ∀ ts, Cache.Get (Cache.cleanup (Cache.Set c key enc val t0) ts) key t1 dec = none) ∧
    (∀ k2, c.items k2 = none → Cache.Get c k2 t1 dec = none) ∧
    (dec2 j = none → Cache.Get (Cache.Set c key enc val t0) key t1 dec2 = none) := by
  have hset : Cache.Set c key enc val t0 =
      { c with items := fun k =>
          if k == key then some { data := j, expiresAt := t0 + c.ttl } else c.items k } := by
    unfold Cache.Set; rw [henc]
  have hitems : (Cache.Set c key enc val t0).items key =
      some { data := j, expiresAt := t0 + c.ttl } := by
    rw [hset]; simp
  refine ⟨?_, ?_, ?_, ?_⟩
  · intro hin
    rw [Cache.Get_items_some hitems, if_neg (not_lt.mpr hin)]
    exact hlaw val j henc
  · intro hexp
    constructor
    · rw [Cache.Get_items_some hitems]
      exact if_pos hexp
    · intro ts
      have hcl := Cache.cleanup_items (Cache.Set c key enc val t0) ts key hitems
      by_cases hts : ts > t0 + c.ttl
      · rw [if_pos hts] at hcl
        exact Cache.Get_items_none hcl
      · rw [if_neg hts] at hcl
        rw [Cache.Get_items_some hcl]
        exact if_pos hexp
  · intro k2 h2
    exact Cache.Get_items_none h2
  · intro hd2
    rw [Cache.Get_items_some hitems]
    by_cases hexp : t1 > t0 + c.ttl
    · exact if_pos hexp
    · rw [if_neg hexp]; exact hd2

/-- Witness for C3: a concrete string-list codec (the JSON array codec used
for domain lists) stored and read back within the TTL. -/
theorem c3_witness :
    ((fun l : List String => some (marshalDomains l)) ["a", "b"] =
        some (marshalDomains ["a", "b"])) ∧
    ((3 : Int) ≤ 0 + (Cache.new 5).ttl) ∧
    Cache.Get
        (Cache.Set (Cache.new 5) "k" (fun l => some (marshalDomains l)) ["a", "b"] 0)
        "k" 3 unmarshalDomains = some ["a", "b"] :=
  ⟨rfl, by decide,
    (c3_cache_get_set (Cache.new 5) "k" ["a", "b"] (marshalDomains ["a", "b"]) 0 3
        (fun l => some (marshalDomains l)) unmarshalDomains (fun _ => none)
        (fun a jv h => by
          cases h
          exact unmarshalDomains_marshalDomains a)
        rfl).1 (by decide)⟩

/-! ## C1 -/

/-- The claim-side reading of a funnel step count: the set of distinct
visitor identifiers having at least one matching event. -/
def stepVisitors (events : List Event) (dom : String) (fromUs toUs : Int)
    (step : String) : Finset String :=
  ((events.filter (funnelStepPred dom fromUs toUs step)).map Event.visitor_id).toFinset

theorem funnelStepCount_eq_card (events : List Event) (dom : String) (f t : Int)
    (step : String) :
    funnelStepCount events dom f t step = (stepVisitors events dom f t step).card := by
  simp [funnelStepCount, stepVisitors, distinctCount, List.card_toFinset]

theorem mem_stepVisitors (events : List Event) (dom : String) (f t : Int)
    (step : String) (v : String) :
    v ∈ stepVisitors events dom f t step ↔
      ∃ e, e ∈ events ∧ e.name = "pageview" ∧ e.pathname = some step ∧
        e.domain = dom ∧ f ≤ e.timestamp ∧ e.timestamp < t ∧ e.visitor_id = v := by
  simp only [stepVisitors, List.mem_toFinset, List.mem_map, List.mem_filter,
    funnelStepPred, inWindow, Bool.and_eq_true, beq_iff_eq, decide_eq_true_eq]
  constructor
  · rintro ⟨e, ⟨he, ⟨⟨⟨hd, hn⟩, hp⟩, hf, ht⟩⟩, hv⟩
    exact ⟨e, he, hn, hp, hd, hf, ht, hv⟩
  · rintro ⟨e, he, hn, hp, hd, hf, ht, hv⟩
    exact ⟨e, ⟨he, ⟨⟨⟨hd, hn⟩, hp⟩, hf, ht⟩⟩, hv⟩

theorem funnel_pairs_eq (events : List Event) (dom : String) (f t : Int)
    (steps : List String) :
    (steps.enum.map fun p =>
        (p.2, scanCountIgnoreErr
          ((noFailDB events).runQ p.1 fun evs => funnelStepCount evs dom f t p.2))) =
      steps.map fun s => (s, funnelStepCount events dom f t s) := by
  have key : ∀ (n : Nat) (l : List String),
      (List.enumFrom n l).map (fun p =>
        (p.2, scanCountIgnoreErr
          ((noFailDB events).runQ p.1 fun evs => funnelStepCount evs dom f t p.2))) =
      l.map fun s => (s, funnelStepCount events dom f t s) := by
    intro n l
    induction l generalizing n with
    | nil => rfl
    | cons s rest ih =>
      simp only [List.enumFrom, List.map_cons, ih]
      rfl
  simpa [List.enum] using key 0 steps

theorem buildFunnelResult_pos (pairs : List (String × Nat)) (h : 0 < pairs.length) :
    buildFunnelResult pairs =
      { steps := pairs.map fun p =>
          { name := p.1
            count := p.2
            percent := if (pairs.headD ("", 0)).2 > 0 then
              (p.2 : ℚ) / ((pairs.headD ("", 0)).2 : ℚ) * 100 else 0 }
        totalStart := (pairs.headD ("", 0)).2
        totalFinish := (pairs.getLastD ("", 0)).2
        conversion := if (pairs.headD ("", 0)).2 > 0 then
          ((pairs.getLastD ("", 0)).2 : ℚ) / ((pairs.headD ("", 0)).2 : ℚ) * 100 else 0 } := by
  unfold buildFunnelResult
  rw [if_pos h]

/-- C1: on both backends, with a materialized (ready) store whose queries
succeed and at least two steps, `GetFunnel` succeeds with one result step
per requested step: the i-th count is the number of distinct visitors
having at least one `pageview` event with exactly that pathname inside the
window; each percent is `count[i]/count[0]*100`, the conversion is
`count[last]/count[0]*100`, and all percent fields and the conversion are
`0` when the first step's count is `0` (the rational `x/0 = 0` convention
makes the unconditional equation hold as well). -/
theorem c1_funnel_counts (events : List Event) (dom : String) (f t : Int)
    (steps : List String) (h2 : 2 ≤ steps.length) :
    ∃ r : FunnelResult,
      Store.GetFunnel true (noFailDB events) dom f t steps = .ok r ∧
      ClickHouseStore.GetFunnel (noFailDB events) dom f t steps = .ok r ∧
      r.steps.length = steps.length ∧
      (∀ i, i < steps.length →
        ∃ step stp, steps[i]? = some step ∧ r.steps[i]? = some stp ∧
          stp.name = step ∧
          stp.count = (stepVisitors events dom f t step).card ∧
          stp.percent = (stp.count : ℚ) /
            ((stepVisitors events dom f t (steps.headD "")).card : ℚ) * 100 ∧
          ((stepVisitors events dom f t (steps.headD "")).card = 0 → stp.percent = 0)) ∧
      r.totalStart = (stepVisitors events dom f t (steps.headD "")).card ∧
      r.totalFinish = (stepVisitors events dom f t (steps.getLastD "")).card ∧
      r.conversion = (r.totalFinish : ℚ) / (r.totalStart : ℚ) * 100 ∧
      (r.totalStart = 0 → r.conversion = 0) ∧
      (∀ step v, v ∈ stepVisitors events dom f t step ↔
        ∃ e, e ∈ events ∧ e.name = "pageview" ∧ e.pathname = some step ∧
          e.domain = dom ∧ f ≤ e.timestamp ∧ e.timestamp < t ∧ e.visitor_id = v) := by
  obtain ⟨s0, steps', rfl⟩ : ∃ s0 l, steps = s0 :: l := by
    cases steps with
    | nil => exact absurd h2 (by simp)
    | cons a l => exact ⟨a, l, rfl⟩
  have hcnd : ¬((!true || decide ((s0 :: steps').length < 2)) = true) := by
    simp only [Bool.not_true, Bool.false_or, decide_eq_true_eq]
    exact not_lt.mpr h2
  have hcnd2 : ¬((decide ((s0 :: steps').length < 2)) = true) := by
    simp only [decide_eq_true_eq]
    exact not_lt.mpr h2
  have hSt : Store.GetFunnel true (noFailDB events) dom f t (s0 :: steps') =
      .ok (buildFunnelResult ((s0 :: steps').map fun s =>
        (s, funnelStepCount events dom f t s))) := by
    unfold Store.GetFunnel
    rw [funnel_pairs_eq, if_neg hcnd]
  have hCh : ClickHouseStore.GetFunnel (noFailDB events) dom f t (s0 :: steps') =
      .ok (buildFunnelResult ((s0 :: steps').map fun s =>
        (s, funnelStepCount events dom f t s))) := by
    unfold ClickHouseStore.GetFunnel
    rw [funnel_pairs_eq, if_neg hcnd2]
  set g : String → String × Nat := fun s => (s, funnelStepCount events dom f t s) with hg
  have hpos : 0 < ((s0 :: steps').map g).length := by simp
  have hhead : ((s0 :: steps').map g).headD ("", 0) = g s0 := rfl
  have hlast : ((s0 :: steps').map g).getLastD ("", 0) =
      g (steps'.getLastD s0) := by
    rw [List.map_cons, List.getLastD_cons, List.getLastD_map]
  have hbuild := buildFunnelResult_pos ((s0 :: steps').map g) hpos
  rw [hhead, hlast] at hbuild
  set c0 := funnelStepCount events dom f t s0 with hc0
  have hcard0 : (stepVisitors events dom f t ((s0 :: steps').headD "")).card = c0 :=
    (funnelStepCount_eq_card events dom f t s0).symm
  refine ⟨buildFunnelResult ((s0 :: steps').map g), hSt, hCh, ?_, ?_, ?_, ?_, ?_, ?_, ?_⟩
  · rw [hbuild]; simp
  · intro i hi
    refine ⟨(s0 :: steps')[i],
      ⟨(s0 :: steps')[i],
        funnelStepCount events dom f t (s0 :: steps')[i],
        if c0 > 0 then
          ((funnelStepCount events dom f t (s0 :: steps')[i] : ℚ)) / (c0 : ℚ) * 100
        else 0⟩,
      List.getElem?_eq_getElem hi, ?_, rfl, ?_, ?_, ?_⟩
    · rw [hbuild]
      simp only [List.getElem?_map, List.getElem?_eq_getElem hi, Option.map_some]
      rfl
    · exact funnelStepCount_eq_card events dom f t (s0 :: steps')[i]
    · rw [hcard0]
      by_cases hz : c0 = 0
      · rw [hz]
        simp
      · rw [if_pos (Nat.pos_of_ne_zero hz)]
    · intro hz
      rw [hcard0] at hz
      rw [if_neg (by simp [hz])]
  · rw [hbuild, hcard0]
  · rw [hbuild]
    show funnelStepCount events dom f t (steps'.getLastD s0) =
      (stepVisitors events dom f t ((s0 :: steps').getLastD "")).card
    rw [List.getLastD_cons]
    exact funnelStepCount_eq_card events dom f t (steps'.getLastD s0)
  · rw [hbuild]
    show (if c0 > 0 then ((funnelStepCount events dom f t (steps'.getLastD s0) : ℚ))
        / (c0 : ℚ) * 100 else 0) =
      ((funnelStepCount events dom f t (steps'.getLastD s0) : ℚ)) / (c0 : ℚ) * 100
    by_cases hz : c0 = 0
    · rw [hz]
      simp
    · rw [if_pos (Nat.pos_of_ne_zero hz)]
  · rw [hbuild]
    intro hz
    have hz' : c0 = 0 := hz
    show (if c0 > 0 then _ else (0 : ℚ)) = 0
    rw [if_neg (by simp [hz'])]
  · intro step v
    exact mem_stepVisitors events dom f t step v

/-- Concrete events for the C1 witness: two visitors on `/a`, one of them
also on `/b`. -/
def sampleEvents : List Event :=
  [{ domain := "d"
     visitor_id := "v1"
     name := "pageview"
     pathname := some "/a"
     url := none
     referrer := none
     browser := none
     os := none
     device := none
     country := none
     props := none
     timestamp := 5 },
   { domain := "d"
     visitor_id := "v2"
     name := "pageview"
     pathname := some "/a"
     url := none
     referrer := none
     browser := none
     os := none
     device := none
     country := none
     props := none
     timestamp := 7 },
   { domain := "d"
     visitor_id := "v2"
     name := "pageview"
     pathname := some "/b"
     url := none
     referrer := none
     browser := none
     os := none
     device := none
     country := none
     props := none
     timestamp := 8 }]

/-- Witness for C1 at two concrete steps over `sampleEvents`. -/
theorem c1_witness :
    2 ≤ (["/a", "/b"] : List String).length ∧
    ∃ r : FunnelResult,
      Store.GetFunnel true (noFailDB sampleEvents) "d" 0 100 ["/a", "/b"] = .ok r ∧
      ClickHouseStore.GetFunnel (noFailDB sampleEvents) "d" 0 100 ["/a", "/b"] = .ok r :=
  ⟨by decide,
    let h := c1_funnel_counts sampleEvents "d" 0 100 ["/a", "/b"] (by decide)
    ⟨h.choose, h.choose_spec.1, h.choose_spec.2.1⟩⟩

/-! ## C7 -/

theorem mem_insertAsc (x y : Int) (l : List Int) :
    y ∈ insertAsc x l ↔ y = x ∨ y ∈ l := by
  induction l with
  | nil => simp [insertAsc]
  | cons z zs ih =>
    unfold insertAsc
    by_cases h : x ≤ z
    · rw [if_pos h]
      simp
    · rw [if_neg h]
      simp only [List.mem_cons, ih]
      tauto

theorem mem_sortAsc (l : List Int) (y : Int) : y ∈ sortAsc l ↔ y ∈ l := by
  unfold sortAsc
  induction l with
  | nil => simp
  | cons z zs ih => simp [List.foldr_cons, mem_insertAsc, ih]

theorem truncUs_idem (w tm : Int) (hw : w ≠ 0) :
    truncUs w (truncUs w tm) = truncUs w tm := by
  unfold truncUs
  rw [Int.mul_fdiv_cancel _ hw]

/-- C7: the query layer picks hourly granularity iff the window is at most
seven days; the store's time series counts only `pageview` events of the
domain inside the window, one point per occupied bucket, labelled
`YYYY-MM-DD` for daily buckets and `YYYY-MM-DDThh:00` for hourly buckets. -/
theorem c7_timeseries_buckets (events : List Event) (dom interval : String) (f t : Int) :
    (t - f ≤ 7 * 24 * 3600 * 1000000 → chooseInterval f t = "hour") ∧
    (7 * 24 * 3600 * 1000000 < t - f → chooseInterval f t = "day") ∧
    Store.GetPageviewsTimeSeries true (noFailDB events) dom f t interval =
      .ok (timeSeriesOf events dom f t interval) ∧
    ∀ p, p ∈ timeSeriesOf events dom f t interval →
      ∃ b, truncUs (tsBucketUs interval) b = b ∧
        p.time = (if interval == "hour"
          then fmtYMD b ++ "T" ++ pad2 (hourOfDay b) ++ ":00" else fmtYMD b) ∧
        p.value = (events.filter fun e =>
          (e.domain == dom && e.name == "pageview" && inWindow e f t) &&
            (truncUs (tsBucketUs interval) e.timestamp == b)).length := by
  refine ⟨?_, ?_, rfl, ?_⟩
  · intro h
    unfold chooseInterval
    rw [if_neg (not_lt.mpr h)]
  · intro h
    unfold chooseInterval
    rw [if_pos h]
  · intro p hp
    simp only [timeSeriesOf, List.mem_map] at hp
    obtain ⟨b, hb, rfl⟩ := hp
    rw [mem_sortAsc, List.mem_dedup, List.mem_map] at hb
    obtain ⟨e, he, rfl⟩ := hb
    refine ⟨truncUs (tsBucketUs interval) e.timestamp, ?_, rfl, ?_⟩
    · refine truncUs_idem _ _ ?_
      unfold tsBucketUs
      by_cases h : interval == "hour"
      · rw [if_pos h]; decide
      · rw [if_neg h]; decide
    · show ((pageviewRows events dom f t).filter fun x =>
          truncUs (tsBucketUs interval) x.timestamp ==
            truncUs (tsBucketUs interval) e.timestamp).length = _
      rw [pageviewRows, List.filter_filter]
      congr 1
      refine List.filter_congr ?_
      intro a _
      exact Bool.and_comm _ _

/-- Witness for C7: the three `sampleEvents` pageviews land in the first
hourly bucket, and the seven-day threshold picks each granularity. -/
theorem c7_witness :
    chooseInterval 0 604800000000 = "hour" ∧
    chooseInterval 0 604800000001 = "day" ∧
    ((⟨"1970-01-01T00:00", 3⟩ : TimeSeriesPoint) ∈ timeSeriesOf sampleEvents "d" 0 100 "hour") ∧
    ∃ b, truncUs (tsBucketUs "hour") b = b ∧
      (⟨"1970-01-01T00:00", 3⟩ : TimeSeriesPoint).time =
        (if ("hour" : String) == "hour"
         then fmtYMD b ++ "T" ++ pad2 (hourOfDay b) ++ ":00" else fmtYMD b) ∧
      (⟨"1970-01-01T00:00", 3⟩ : TimeSeriesPoint).value =
        (sampleEvents.filter fun e =>
          (e.domain == "d" && e.name == "pageview" && inWindow e 0 100) &&
            (truncUs (tsBucketUs "hour") e.timestamp == b)).length :=
  ⟨(c7_timeseries_buckets [] "d" "x" 0 604800000000).1 (by decide),
   (c7_timeseries_buckets [] "d" "x" 0 604800000001).2.1 (by decide),
   by decide,
   (c7_timeseries_buckets sampleEvents "d" "hour" 0 100).2.2.2
     ⟨"1970-01-01T00:00", 3⟩ (by decide)⟩

end ClickStats
